import Mathlib

/-! Credential file cache of `storages/git/credential_files.go`, and the age
provider of `crypt/sops/age.go`.

A shallow embedding of `credentialFileCache.readTrimmed` and of the few
library operations it calls (`os.Stat`, `os.ReadFile`, `strings.TrimSpace`,
`time.Time.UnixNano`), of `AgeConfig.IsActivated` and `AgeConfig.KeyGroup`, and
of the resolver `authBasicHTTP` as its specification describes it, followed by
theorems about them.

Modelling conventions:

* Go strings are modelled by Lean strings (sequences of code points); file
  contents are taken to be valid UTF-8.
* The filesystem is a pair of functions giving the result of `os.Stat` and of
  `os.ReadFile` for each path.  The two are independent, so a state in which
  the stat succeeds and the read fails is expressible.
* The Go map `entries` is a function from paths to optional entries.
* The mutex is not modelled: calls are sequential.
* Every call records the filesystem calls it performs, in order.
-/

namespace CredentialFiles

/-! ## Library operations -/

/-- Two's-complement truncation of an integer to the range of a Go `int64`. -/
def wrapInt64 (n : Int) : Int :=
  (n + 2 ^ 63) % 2 ^ 64 - 2 ^ 63

/-- An instant of `time.Time`: nanoseconds elapsed since January 1, 1970 UTC,
as a mathematical integer (a `time.Time` holds 64 bits of seconds, far more
than 64 bits of nanoseconds). -/
structure Time where
  nanos : Int
deriving DecidableEq, Repr

/-- Go `Time.After`: the instant `t` is strictly later than `u`. -/
def Time.After (t u : Time) : Prop :=
  u.nanos < t.nanos

instance (t u : Time) : Decidable (t.After u) :=
  inferInstanceAs (Decidable (u.nanos < t.nanos))

/-- Go `Time.Add` of a duration given in nanoseconds. -/
def Time.Add (t : Time) (d : Int) : Time :=
  ⟨t.nanos + d⟩

/-- Go `Time.UnixNano`: `unixSec*1e9 + nsec` computed in `int64`, hence the
instant truncated to 64 bits. -/
def Time.UnixNano (t : Time) : Int :=
  wrapInt64 t.nanos

/-- The part of `os.FileInfo` that the cache looks at. -/
structure FileInfo where
  ModTime : Time
  Size : Int
deriving DecidableEq, Repr

/-- Go `unicode.IsSpace`. -/
def isSpace (c : Char) : Bool :=
  let n := c.toNat
  (0x09 ≤ n && n ≤ 0x0D) || n == 0x20 || n == 0x85 || n == 0xA0 || n == 0x1680 ||
    (0x2000 ≤ n && n ≤ 0x200A) || n == 0x2028 || n == 0x2029 || n == 0x202F ||
    n == 0x205F || n == 0x3000

/-- Go `strings.TrimSpace` on the code points of a string. -/
def trimSpaceChars (l : List Char) : List Char :=
  (l.dropWhile isSpace).rdropWhile isSpace

/-- Go `strings.TrimSpace`: the string without its leading and trailing white
space. -/
def TrimSpace (s : String) : String :=
  ⟨trimSpaceChars s.data⟩

/-- An error returned by the `os` package (`*fs.PathError`). -/
structure PathError where
  Op : String
  Path : String
  Errno : Nat
deriving DecidableEq, Repr

/-- The Go `error` values that `readTrimmed` can return: the package sentinel
`errCredentialFileEmpty`, or an error of the `os` package handed on as is. -/
inductive GoError where
  | errCredentialFileEmpty : GoError
  | os (e : PathError) : GoError
deriving DecidableEq, Repr

/-- A filesystem state: what `os.Stat` and `os.ReadFile` answer for a path. -/
structure FileSystem where
  stat : String → Except PathError FileInfo
  readFile : String → Except PathError String

/-- A call made to the filesystem. -/
inductive FsCall where
  | stat (path : String) : FsCall
  | readFile (path : String) : FsCall
deriving DecidableEq, Repr

/-! ## The source: `credential_files.go` -/

/-- Go struct `credentialFileSignature`. -/
structure credentialFileSignature where
  modTimeUnixNano : Int
  size : Int
deriving DecidableEq, Repr

/-- Go `signatureForFileInfo`. -/
def signatureForFileInfo (info : FileInfo) : credentialFileSignature :=
  { modTimeUnixNano := info.ModTime.UnixNano, size := info.Size }

/-- Go struct `cachedCredentialFile`. -/
structure cachedCredentialFile where
  sig : credentialFileSignature
  value : String
deriving DecidableEq, Repr

/-- Go struct `credentialFileCache`: the map `entries`. -/
@[ext]
structure credentialFileCache where
  entries : String → Option cachedCredentialFile

/-- Go `newCredentialFileCache`: a cache with an empty map. -/
def newCredentialFileCache : credentialFileCache :=
  { entries := fun _ => none }

/-- The map assignment `cache.entries[path] = entry`. -/
def credentialFileCache.store (cache : credentialFileCache) (path : String)
    (entry : cachedCredentialFile) : credentialFileCache :=
  { entries := fun p => if p = path then some entry else cache.entries p }

/-- What a call of `readTrimmed` returns and does: the returned pair
`(value, err)` (with `err = none` for Go `nil`), the cache after the call and
the filesystem calls performed, in order. -/
structure ReadResult where
  value : String
  err : Option GoError
  cache : credentialFileCache
  calls : List FsCall

/-- The test `ok && entry.sig == sig && entry.value != ""` of `readTrimmed`
(lines 50-51), on the result of the map lookup. -/
def cacheHit (lookup : Option cachedCredentialFile) (sig : credentialFileSignature) :
    Option String :=
  match lookup with
  | some entry => if entry.sig = sig ∧ entry.value ≠ "" then some entry.value else none
  | none => none

/-- Go `credentialFileCache.readTrimmed`. -/
def readTrimmed (fs : FileSystem) (cache : credentialFileCache) (path : String) :
    ReadResult :=
  match fs.stat path with
  | .error err => { value := "", err := some (.os err), cache := cache, calls := [.stat path] }
  | .ok info =>
    let sig := signatureForFileInfo info
    match cacheHit (cache.entries path) sig with
    | some value => { value := value, err := none, cache := cache, calls := [.stat path] }
    | none =>
      match fs.readFile path with
      | .error err =>
        { value := "", err := some (.os err), cache := cache,
          calls := [.stat path, .readFile path] }
      | .ok buf =>
        let value := TrimSpace buf
        if value = "" then
          { value := "", err := some .errCredentialFileEmpty, cache := cache,
            calls := [.stat path, .readFile path] }
        else
          { value := value, err := none,
            cache := cache.store path { sig := sig, value := value },
            calls := [.stat path, .readFile path] }

/-- The global `credentialFiles`. -/
def credentialFiles : credentialFileCache :=
  newCredentialFileCache

/-! ## Sequences of calls -/

/-- One call of a run: the filesystem state at the time of the call and the
path asked for. -/
structure Call where
  fs : FileSystem
  path : String

/-- The results of a sequence of `readTrimmed` calls on one cache, each call
starting from the cache left by the one before. -/
def runCalls (cache : credentialFileCache) : List Call → List ReadResult
  | [] => []
  | c :: rest =>
    let r := readTrimmed c.fs cache c.path
    r :: runCalls r.cache rest

/-- The cache left by a sequence of `readTrimmed` calls. -/
def finalCache (cache : credentialFileCache) : List Call → credentialFileCache
  | [] => cache
  | c :: rest => finalCache (readTrimmed c.fs cache c.path).cache rest

/-- A filesystem holding a single readable file. -/
def singleFile (path : String) (info : FileInfo) (content : String) : FileSystem :=
  { stat := fun p => if p = path then .ok info else .error ⟨"stat", p, 2⟩
    readFile := fun p => if p = path then .ok content else .error ⟨"open", p, 2⟩ }

/-- The number of `os.ReadFile` calls among the filesystem calls performed. -/
def contentReads (calls : List FsCall) : Nat :=
  calls.countP fun
    | .readFile _ => true
    | .stat _ => false

/-- The number of `os.ReadFile` calls performed by a sequence of calls. -/
def totalReads (results : List ReadResult) : Nat :=
  (results.map fun r => contentReads r.calls).sum

/-- The `(path, signature)` pairs that the stats of a run observe, in order:
one for every call whose `os.Stat` succeeds. -/
def observed : List Call → List (String × credentialFileSignature)
  | [] => []
  | c :: rest =>
    match c.fs.stat c.path with
    | .ok info => (c.path, signatureForFileInfo info) :: observed rest
    | .error _ => observed rest

/-- The signature observed last for a path in a list of observations. -/
def lastSig (obs : List (String × credentialFileSignature)) (path : String) :
    Option credentialFileSignature :=
  ((obs.filter fun o => o.1 = path).getLast?).map Prod.snd

/-- No path goes back to a signature it had before: every observation of
`obs` that already occurs earlier (in `pre` or in `obs`) carries the signature
observed last for its path. -/
def noRevertFrom (pre : List (String × credentialFileSignature)) :
    List (String × credentialFileSignature) → Prop
  | [] => True
  | o :: rest => (o ∈ pre → lastSig pre o.1 = some o.2) ∧ noRevertFrom (pre ++ [o]) rest

instance noRevertFrom.decidable (pre obs : List (String × credentialFileSignature)) :
    Decidable (noRevertFrom pre obs) := by
  induction obs generalizing pre with
  | nil => exact isTrue trivial
  | cons o rest ih =>
    unfold noRevertFrom
    exact @instDecidableAnd _ _ inferInstance (ih (pre ++ [o]))

/-- In the whole run no path goes back to a signature it had before. -/
def NoRevert (obs : List (String × credentialFileSignature)) : Prop :=
  noRevertFrom [] obs

instance (obs : List (String × credentialFileSignature)) : Decidable (NoRevert obs) :=
  noRevertFrom.decidable [] obs

/-- Every entry of the cache holds a value that is non-empty and trimmed. -/
def CacheWF (cache : credentialFileCache) : Prop :=
  ∀ p e, cache.entries p = some e → e.value ≠ "" ∧ TrimSpace e.value = e.value

/-- The instant is in the range in which `UnixNano` is exact (the years 1678
to 2262). -/
def Time.inInt64Range (t : Time) : Prop :=
  -(2 ^ 63) ≤ t.nanos ∧ t.nanos < 2 ^ 63

instance (t : Time) : Decidable t.inInt64Range :=
  inferInstanceAs (Decidable (-(2 ^ 63) ≤ t.nanos ∧ t.nanos < 2 ^ 63))

/-! ## The fast path without the guard on the value -/

/-- The test of the fast path with the signatures compared only:
`ok && entry.sig == sig`, without `entry.value != ""`. -/
def cacheHitSigOnly (lookup : Option cachedCredentialFile) (sig : credentialFileSignature) :
    Option String :=
  match lookup with
  | some entry => if entry.sig = sig then some entry.value else none
  | none => none

/-- The variant of `readTrimmed` whose fast path compares the signatures only;
the rest is `readTrimmed` line by line. -/
def readTrimmedSigOnly (fs : FileSystem) (cache : credentialFileCache) (path : String) :
    ReadResult :=
  match fs.stat path with
  | .error err => { value := "", err := some (.os err), cache := cache, calls := [.stat path] }
  | .ok info =>
    let sig := signatureForFileInfo info
    match cacheHitSigOnly (cache.entries path) sig with
    | some value => { value := value, err := none, cache := cache, calls := [.stat path] }
    | none =>
      match fs.readFile path with
      | .error err =>
        { value := "", err := some (.os err), cache := cache,
          calls := [.stat path, .readFile path] }
      | .ok buf =>
        let value := TrimSpace buf
        if value = "" then
          { value := "", err := some .errCredentialFileEmpty, cache := cache,
            calls := [.stat path, .readFile path] }
        else
          { value := value, err := none,
            cache := cache.store path { sig := sig, value := value },
            calls := [.stat path, .readFile path] }

/-- The results of a sequence of calls of the variant `readTrimmedSigOnly`. -/
def runCallsSigOnly (cache : credentialFileCache) : List Call → List ReadResult
  | [] => []
  | c :: rest =>
    let r := readTrimmedSigOnly c.fs cache c.path
    r :: runCallsSigOnly r.cache rest

/-! ## The source: `crypt/sops/age.go` -/

/-- The process environment: the value of each variable that is set. -/
abbrev Environ := String → Option String

/-- Go `os.LookupEnv`: the value of the variable (empty when it is not set) and
whether it is set. -/
def LookupEnv (env : Environ) (key : String) : String × Bool :=
  match env key with
  | some value => (value, true)
  | none => ("", false)

/-- Go `os.Getenv`: the value of the variable, empty when it is not set. -/
def Getenv (env : Environ) (key : String) : String :=
  match env key with
  | some value => value
  | none => ""

/-- Go struct `AgeConfig`. -/
structure AgeConfig where
deriving DecidableEq, Repr

/-- Go `AgeConfig.IsActivated`. -/
def AgeConfig.IsActivated (_a : AgeConfig) (env : Environ) : Bool :=
  (LookupEnv env "TF_BACKEND_HTTP_SOPS_AGE_RECIPIENTS").2

/-- Go `AgeConfig.KeyGroup`.  The recipient parser `age.MasterKeysFromRecipients`
of the sops library is a parameter; `K` is the type of its keys and `E` the type
of its errors.  The loop appends the keys one by one to the nil key group. -/
def AgeConfig.KeyGroup {K E : Type} (_a : AgeConfig)
    (MasterKeysFromRecipients : String → Except E (List K)) (env : Environ) :
    Except E (List K) :=
  let recepients := Getenv env "TF_BACKEND_HTTP_SOPS_AGE_RECIPIENTS"
  match MasterKeysFromRecipients recepients with
  | .error err => .error err
  | .ok masterKeys => .ok (masterKeys.foldl (fun keyGroup k => keyGroup ++ [k]) [])

/-- The fields of a comma separated list of characters. -/
def splitComma : List Char → List (List Char)
  | [] => [[]]
  | c :: cs =>
    if c = ',' then [] :: splitComma cs
    else
      match splitComma cs with
      | [] => [[c]]
      | w :: ws => (c :: w) :: ws

/-- A recipient parser for the examples: recipients are separated by commas
and each must start with `age1`; the first that does not is the error. -/
def sampleRecipients (recipients : String) : Except String (List String) :=
  if recipients = "" then .ok []
  else
    let parts := splitComma recipients.data
    match parts.find? fun r => !("age1".data.isPrefixOf r) with
    | some bad => .error ⟨bad⟩
    | none => .ok (parts.map String.mk)

/-! ## Transport authentication -/

/-- An environment given by the list of its variables. -/
def envOf (vars : List (String × String)) : Environ :=
  fun key => (vars.find? fun kv => kv.1 = key).map Prod.snd

/-- The password file of the tests. -/
def passwordFile : FileSystem :=
  singleFile "password" ⟨⟨1700000000000000000⟩, 9⟩ "fromfile\n"

/-! ## Concrete filesystem states -/

/-- A token file written at some instant of November 2023 with `"tok1\n"`. -/
def tokenV1 : FileSystem :=
  singleFile "token" ⟨⟨1700000000000000000⟩, 5⟩ "tok1\n"

/-- The token file rewritten with `"tok2\n"`, its modification time and size
unchanged. -/
def tokenSameSig : FileSystem :=
  singleFile "token" ⟨⟨1700000000000000000⟩, 5⟩ "tok2\n"

/-- The token file rewritten with `"tok2\n"`, its modification time advanced
by two seconds. -/
def tokenV2 : FileSystem :=
  singleFile "token" ⟨(Time.mk 1700000000000000000).Add 2000000000, 5⟩ "tok2\n"

/-- The token file rewritten with `"tok2\n"`, its modification time advanced
by `2^64` nanoseconds (some 584 years). -/
def tokenFarFuture : FileSystem :=
  singleFile "token" ⟨(Time.mk 1700000000000000000).Add 18446744073709551616, 5⟩ "tok2\n"

/-- The token file rewritten with five blanks, its modification time and size
unchanged. -/
def tokenBlank : FileSystem :=
  singleFile "token" ⟨⟨1700000000000000000⟩, 5⟩ "     "

/-- The token file can still be stat'ed but its content cannot be read. -/
def tokenUnreadable : FileSystem :=
  { stat := fun p =>
      if p = "token" then .ok ⟨⟨1700000000000000000⟩, 5⟩ else .error ⟨"stat", p, 2⟩
    readFile := fun p => .error ⟨"open", p, 13⟩ }

/-- A filesystem without any file. -/
def noFiles : FileSystem :=
  { stat := fun p => .error ⟨"stat", p, 2⟩
    readFile := fun p => .error ⟨"open", p, 2⟩ }

/-- The cache after a first successful read of the token file `tokenV1`. -/
def warmCache : credentialFileCache :=
  (readTrimmed tokenV1 newCredentialFileCache "token").cache

/-- The token file is read, rewritten two seconds later, and then restored
with its first content and modification time. -/
def restoredCalls : List Call :=
  [⟨tokenV1, "token"⟩, ⟨tokenV2, "token"⟩, ⟨tokenV1, "token"⟩]

/-- The token file is read twice, rewritten two seconds later and read twice
again. -/
def rotatedCalls : List Call :=
  [⟨tokenV1, "token"⟩, ⟨tokenV1, "token"⟩, ⟨tokenV2, "token"⟩, ⟨tokenV2, "token"⟩]

/-! ## White space trimming -/

theorem trimSpaceChars_head (l : List Char) (c : Char)
    (h : (trimSpaceChars l).head? = some c) : isSpace c = false := by
  unfold trimSpaceChars at h
  obtain ⟨t, ht⟩ := List.rdropWhile_prefix isSpace (l := l.dropWhile isSpace)
  have hd := List.head?_dropWhile_not isSpace l
  cases hr : (l.dropWhile isSpace).rdropWhile isSpace with
  | nil => rw [hr] at h; simp at h
  | cons a r =>
    rw [hr] at h ht
    simp only [List.head?_cons, Option.some.injEq] at h
    rw [← ht] at hd
    simp only [List.cons_append, List.head?_cons] at hd
    rw [← h]; exact hd

theorem trimSpaceChars_last (l : List Char) (c : Char)
    (h : (trimSpaceChars l).getLast? = some c) : isSpace c = false := by
  unfold trimSpaceChars at h
  have hne : (l.dropWhile isSpace).rdropWhile isSpace ≠ [] := by
    intro h0; rw [h0] at h; simp at h
  have hl := List.rdropWhile_last_not isSpace (l.dropWhile isSpace) hne
  rw [List.getLast?_eq_getLast _ hne] at h
  simp only [Option.some.injEq] at h
  rw [← h]
  simpa using hl

theorem trimSpaceChars_idem (l : List Char) :
    trimSpaceChars (trimSpaceChars l) = trimSpaceChars l := by
  have hd : (trimSpaceChars l).dropWhile isSpace = trimSpaceChars l := by
    have hh := trimSpaceChars_head l
    generalize trimSpaceChars l = t at hh
    cases t with
    | nil => rfl
    | cons a r => simp [List.dropWhile_cons, hh a rfl]
  show ((trimSpaceChars l).dropWhile isSpace).rdropWhile isSpace = trimSpaceChars l
  rw [hd]
  exact List.rdropWhile_idempotent isSpace (l.dropWhile isSpace)

theorem trimSpaceChars_eq_nil_iff (l : List Char) :
    trimSpaceChars l = [] ↔ ∀ c ∈ l, isSpace c = true := by
  unfold trimSpaceChars
  rw [List.rdropWhile_eq_nil_iff]
  constructor
  · intro h
    have : l.dropWhile isSpace = [] := by
      cases hd : l.dropWhile isSpace with
      | nil => rfl
      | cons a r =>
        have ha := h a (by rw [hd]; simp)
        have hn := List.head?_dropWhile_not isSpace l
        rw [hd] at hn
        simp only [List.head?_cons] at hn
        rw [ha] at hn; cases hn
    exact List.dropWhile_eq_nil_iff.mp this
  · intro h
    rw [List.dropWhile_eq_nil_iff.mpr h]
    simp

theorem TrimSpace_idem (s : String) : TrimSpace (TrimSpace s) = TrimSpace s := by
  unfold TrimSpace
  simp only [trimSpaceChars_idem]

theorem TrimSpace_eq_empty_iff (s : String) :
    TrimSpace s = "" ↔ ∀ c ∈ s.data, isSpace c = true := by
  rw [← trimSpaceChars_eq_nil_iff]
  unfold TrimSpace
  constructor
  · intro h; exact congrArg String.data h
  · intro h; rw [h]

/-! ## The paths through `readTrimmed` -/

theorem cacheHit_eq_none_iff (lookup : Option cachedCredentialFile)
    (sig : credentialFileSignature) :
    cacheHit lookup sig = none ↔ ∀ e, lookup = some e → e.sig ≠ sig ∨ e.value = "" := by
  cases lookup with
  | none => simp [cacheHit]
  | some e =>
    simp only [cacheHit, ite_eq_right_iff, Option.some.injEq, forall_eq', reduceCtorEq,
      imp_false, not_and, not_not, ne_eq]
    tauto

theorem cacheHit_eq_some_iff (lookup : Option cachedCredentialFile)
    (sig : credentialFileSignature) (v : String) :
    cacheHit lookup sig = some v ↔
      ∃ e, lookup = some e ∧ e.sig = sig ∧ e.value ≠ "" ∧ e.value = v := by
  cases lookup with
  | none => simp [cacheHit]
  | some e =>
    simp only [cacheHit, Option.some.injEq, exists_eq_left', ne_eq]
    constructor
    · intro h
      split at h
      · rename_i hc; exact ⟨hc.1, hc.2, Option.some.inj h⟩
      · cases h
    · rintro ⟨h1, h2, h3⟩
      rw [if_pos ⟨h1, h2⟩, h3]

theorem readTrimmed_stat_error (fs : FileSystem) (cache : credentialFileCache)
    (path : String) (e : PathError) (hstat : fs.stat path = .error e) :
    readTrimmed fs cache path =
      { value := "", err := some (.os e), cache := cache, calls := [.stat path] } := by
  simp only [readTrimmed, hstat]

theorem readTrimmed_hit (fs : FileSystem) (cache : credentialFileCache) (path : String)
    (info : FileInfo) (v : String) (hstat : fs.stat path = .ok info)
    (hhit : cacheHit (cache.entries path) (signatureForFileInfo info) = some v) :
    readTrimmed fs cache path =
      { value := v, err := none, cache := cache, calls := [.stat path] } := by
  simp only [readTrimmed, hstat, hhit]

theorem readTrimmed_read_error (fs : FileSystem) (cache : credentialFileCache)
    (path : String) (info : FileInfo) (e : PathError) (hstat : fs.stat path = .ok info)
    (hmiss : cacheHit (cache.entries path) (signatureForFileInfo info) = none)
    (hread : fs.readFile path = .error e) :
    readTrimmed fs cache path =
      { value := "", err := some (.os e), cache := cache,
        calls := [.stat path, .readFile path] } := by
  simp only [readTrimmed, hstat, hmiss, hread]

theorem readTrimmed_empty (fs : FileSystem) (cache : credentialFileCache) (path : String)
    (info : FileInfo) (buf : String) (hstat : fs.stat path = .ok info)
    (hmiss : cacheHit (cache.entries path) (signatureForFileInfo info) = none)
    (hread : fs.readFile path = .ok buf) (hempty : TrimSpace buf = "") :
    readTrimmed fs cache path =
      { value := "", err := some .errCredentialFileEmpty, cache := cache,
        calls := [.stat path, .readFile path] } := by
  simp only [readTrimmed, hstat, hmiss, hread, hempty, if_true]

theorem readTrimmed_store (fs : FileSystem) (cache : credentialFileCache) (path : String)
    (info : FileInfo) (buf : String) (hstat : fs.stat path = .ok info)
    (hmiss : cacheHit (cache.entries path) (signatureForFileInfo info) = none)
    (hread : fs.readFile path = .ok buf) (hne : TrimSpace buf ≠ "") :
    readTrimmed fs cache path =
      { value := TrimSpace buf, err := none,
        cache := cache.store path
          { sig := signatureForFileInfo info, value := TrimSpace buf },
        calls := [.stat path, .readFile path] } := by
  simp only [readTrimmed, hstat, hmiss, hread, hne, if_false]

theorem store_entries_self (cache : credentialFileCache) (path : String)
    (entry : cachedCredentialFile) : (cache.store path entry).entries path = some entry := by
  simp [credentialFileCache.store]

theorem store_entries_other (cache : credentialFileCache) (path q : String)
    (entry : cachedCredentialFile) (h : q ≠ path) :
    (cache.store path entry).entries q = cache.entries q := by
  simp [credentialFileCache.store, h]

/-- The five ways through `readTrimmed`. -/
theorem readTrimmed_cases (fs : FileSystem) (cache : credentialFileCache) (path : String) :
    (∃ e, fs.stat path = .error e ∧
      readTrimmed fs cache path =
        { value := "", err := some (.os e), cache := cache, calls := [.stat path] }) ∨
    (∃ info v, fs.stat path = .ok info ∧
      cacheHit (cache.entries path) (signatureForFileInfo info) = some v ∧
      readTrimmed fs cache path =
        { value := v, err := none, cache := cache, calls := [.stat path] }) ∨
    (∃ info e, fs.stat path = .ok info ∧
      cacheHit (cache.entries path) (signatureForFileInfo info) = none ∧
      fs.readFile path = .error e ∧
      readTrimmed fs cache path =
        { value := "", err := some (.os e), cache := cache,
          calls := [.stat path, .readFile path] }) ∨
    (∃ info buf, fs.stat path = .ok info ∧
      cacheHit (cache.entries path) (signatureForFileInfo info) = none ∧
      fs.readFile path = .ok buf ∧ TrimSpace buf = "" ∧
      readTrimmed fs cache path =
        { value := "", err := some .errCredentialFileEmpty, cache := cache,
          calls := [.stat path, .readFile path] }) ∨
    (∃ info buf, fs.stat path = .ok info ∧
      cacheHit (cache.entries path) (signatureForFileInfo info) = none ∧
      fs.readFile path = .ok buf ∧ TrimSpace buf ≠ "" ∧
      readTrimmed fs cache path =
        { value := TrimSpace buf, err := none,
          cache := cache.store path
            { sig := signatureForFileInfo info, value := TrimSpace buf },
          calls := [.stat path, .readFile path] }) := by
  cases hstat : fs.stat path with
  | error e => exact Or.inl ⟨e, rfl, readTrimmed_stat_error fs cache path e hstat⟩
  | ok info =>
    cases hhit : cacheHit (cache.entries path) (signatureForFileInfo info) with
    | some v =>
      exact Or.inr (Or.inl ⟨info, v, rfl, hhit, readTrimmed_hit fs cache path info v hstat hhit⟩)
    | none =>
      cases hread : fs.readFile path with
      | error e =>
        exact Or.inr (Or.inr (Or.inl ⟨info, e, rfl, hhit, rfl,
          readTrimmed_read_error fs cache path info e hstat hhit hread⟩))
      | ok buf =>
        by_cases hempty : TrimSpace buf = ""
        · exact Or.inr (Or.inr (Or.inr (Or.inl ⟨info, buf, rfl, hhit, rfl, hempty,
            readTrimmed_empty fs cache path info buf hstat hhit hread hempty⟩)))
        · exact Or.inr (Or.inr (Or.inr (Or.inr ⟨info, buf, rfl, hhit, rfl, hempty,
            readTrimmed_store fs cache path info buf hstat hhit hread hempty⟩)))

/-- After a successful call the cache holds for the path the signature of the
stat and the value returned. -/
theorem readTrimmed_ok_entry (fs : FileSystem) (cache : credentialFileCache)
    (path : String) (info : FileInfo) (hstat : fs.stat path = .ok info)
    (hok : (readTrimmed fs cache path).err = none) :
    (readTrimmed fs cache path).value ≠ "" ∧
      (readTrimmed fs cache path).cache.entries path =
        some { sig := signatureForFileInfo info,
               value := (readTrimmed fs cache path).value } := by
  rcases readTrimmed_cases fs cache path with ⟨e, hs, _⟩ | ⟨i, v, hs, hh, hr⟩ |
    ⟨i, e, hs, _, _, hr⟩ | ⟨i, buf, hs, _, _, _, hr⟩ | ⟨i, buf, hs, _, _, hne, hr⟩
  · rw [hstat] at hs; cases hs
  · rw [hstat] at hs; cases hs
    obtain ⟨e, he, hsig, hval, hv⟩ := (cacheHit_eq_some_iff _ _ _).mp hh
    rw [hr]
    refine ⟨hv ▸ hval, ?_⟩
    show cache.entries path = _
    rw [he, ← hsig, ← hv]
  · rw [hr] at hok; cases hok
  · rw [hr] at hok; cases hok
  · rw [hstat] at hs; cases hs
    rw [hr]
    exact ⟨hne, store_entries_self _ _ _⟩

theorem wrapInt64_of_inRange (n : Int) (h1 : -(2 ^ 63) ≤ n) (h2 : n < 2 ^ 63) :
    wrapInt64 n = n := by
  unfold wrapInt64
  omega

/-- In the range of `UnixNano` a later modification time changes the
signature. -/
theorem signature_ne_of_after (info1 info2 : FileInfo)
    (hafter : info2.ModTime.After info1.ModTime)
    (h1 : info1.ModTime.inInt64Range) (h2 : info2.ModTime.inInt64Range) :
    signatureForFileInfo info2 ≠ signatureForFileInfo info1 := by
  intro h
  have hm := congrArg credentialFileSignature.modTimeUnixNano h
  simp only [signatureForFileInfo, Time.UnixNano] at hm
  rw [wrapInt64_of_inRange _ h1.1 h1.2, wrapInt64_of_inRange _ h2.1 h2.2] at hm
  unfold Time.After at hafter
  omega

theorem CacheWF_new : CacheWF newCredentialFileCache := by
  intro p e h
  cases h

theorem readTrimmed_preserves_CacheWF (fs : FileSystem) (cache : credentialFileCache)
    (path : String) (hwf : CacheWF cache) : CacheWF (readTrimmed fs cache path).cache := by
  rcases readTrimmed_cases fs cache path with ⟨e, _, hr⟩ | ⟨i, v, _, _, hr⟩ |
    ⟨i, e, _, _, _, hr⟩ | ⟨i, buf, _, _, _, _, hr⟩ | ⟨i, buf, _, _, _, hne, hr⟩
  · rw [hr]; exact hwf
  · rw [hr]; exact hwf
  · rw [hr]; exact hwf
  · rw [hr]; exact hwf
  · rw [hr]
    intro p e he
    by_cases hp : p = path
    · subst hp
      rw [store_entries_self] at he
      cases he
      exact ⟨hne, TrimSpace_idem buf⟩
    · rw [store_entries_other _ _ _ _ hp] at he
      exact hwf p e he

theorem readTrimmed_ok_value (fs : FileSystem) (cache : credentialFileCache)
    (path : String) (hwf : CacheWF cache) (hok : (readTrimmed fs cache path).err = none) :
    (readTrimmed fs cache path).value ≠ "" ∧
      TrimSpace (readTrimmed fs cache path).value = (readTrimmed fs cache path).value := by
  rcases readTrimmed_cases fs cache path with ⟨e, _, hr⟩ | ⟨i, v, _, hh, hr⟩ |
    ⟨i, e, _, _, _, hr⟩ | ⟨i, buf, _, _, _, _, hr⟩ | ⟨i, buf, _, _, _, hne, hr⟩
  · rw [hr] at hok; cases hok
  · obtain ⟨e, he, _, _, hv⟩ := (cacheHit_eq_some_iff _ _ _).mp hh
    rw [hr]
    exact hv ▸ hwf path e he
  · rw [hr] at hok; cases hok
  · rw [hr] at hok; cases hok
  · rw [hr]
    exact ⟨hne, TrimSpace_idem buf⟩

theorem runCalls_ok_value (calls : List Call) (cache : credentialFileCache)
    (hwf : CacheWF cache) (r : ReadResult) (hr : r ∈ runCalls cache calls)
    (hok : r.err = none) : r.value ≠ "" ∧ TrimSpace r.value = r.value := by
  induction calls generalizing cache with
  | nil => simp [runCalls] at hr
  | cons c rest ih =>
    simp only [runCalls, List.mem_cons] at hr
    rcases hr with rfl | hr
    · exact readTrimmed_ok_value c.fs cache c.path hwf hok
    · exact ih _ (readTrimmed_preserves_CacheWF c.fs cache c.path hwf) hr

theorem trimmed_ends (v : String) (h : TrimSpace v = v) :
    (∀ c, v.data.head? = some c → isSpace c = false) ∧
      (∀ c, v.data.getLast? = some c → isSpace c = false) := by
  have hd : trimSpaceChars v.data = v.data := congrArg String.data h
  constructor
  · intro c hc
    rw [← hd] at hc
    exact trimSpaceChars_head _ _ hc
  · intro c hc
    rw [← hd] at hc
    exact trimSpaceChars_last _ _ hc

theorem lastSig_nil (p : String) : lastSig [] p = none := rfl

theorem lastSig_append_self (pre : List (String × credentialFileSignature)) (p : String)
    (s : credentialFileSignature) : lastSig (pre ++ [(p, s)]) p = some s := by
  simp [lastSig, List.filter_append, List.filter_cons]

theorem lastSig_append_other (pre : List (String × credentialFileSignature))
    (p q : String) (s : credentialFileSignature) (h : q ≠ p) :
    lastSig (pre ++ [(p, s)]) q = lastSig pre q := by
  have : ¬ p = q := fun h2 => h h2.symm
  simp [lastSig, List.filter_append, List.filter_cons, this]

theorem totalReads_cons (r : ReadResult) (rs : List ReadResult) :
    totalReads (r :: rs) = contentReads r.calls + totalReads rs := rfl

theorem card_toFinset_append_le (pre rest : List (String × credentialFileSignature))
    (o : String × credentialFileSignature) :
    (pre ++ [o]).toFinset.card ≤ (pre ++ o :: rest).toFinset.card := by
  apply Finset.card_le_card
  intro x hx
  simp only [List.mem_toFinset, List.mem_append, List.mem_cons, List.mem_singleton,
    List.not_mem_nil, or_false] at hx ⊢
  tauto

/-- The read-count bound, from any cache that mirrors the observations made so
far. -/
theorem totalReads_bound (calls : List Call) (cache : credentialFileCache)
    (pre : List (String × credentialFileSignature))
    (hinv : ∀ p, (cache.entries p).map cachedCredentialFile.sig = lastSig pre p)
    (hval : ∀ p e, cache.entries p = some e → e.value ≠ "")
    (hreads : ∀ r ∈ runCalls cache calls, 0 < contentReads r.calls → r.err = none)
    (hnr : noRevertFrom pre (observed calls)) :
    totalReads (runCalls cache calls) + pre.toFinset.card ≤
      (pre ++ observed calls).toFinset.card := by
  induction calls generalizing cache pre with
  | nil => simp [runCalls, observed, totalReads]
  | cons c rest ih =>
    have hrest : ∀ r ∈ runCalls (readTrimmed c.fs cache c.path).cache rest,
        0 < contentReads r.calls → r.err = none := fun r hr =>
      hreads r (List.mem_cons_of_mem _ hr)
    have hfirst : 0 < contentReads (readTrimmed c.fs cache c.path).calls →
        (readTrimmed c.fs cache c.path).err = none :=
      hreads _ (List.mem_cons_self _ _)
    have hpos : 0 < contentReads [FsCall.stat c.path, FsCall.readFile c.path] := by
      simp [contentReads]
    have hone : contentReads [FsCall.stat c.path, FsCall.readFile c.path] = 1 := by
      simp [contentReads]
    have hzero : contentReads [FsCall.stat c.path] = 0 := by
      simp [contentReads]
    simp only [runCalls, totalReads_cons]
    rcases readTrimmed_cases c.fs cache c.path with ⟨e, hs, hr⟩ | ⟨i, v, hs, hh, hr⟩ |
      ⟨i, e, hs, hh, hrd, hr⟩ | ⟨i, buf, hs, hh, hrd, hem, hr⟩ |
      ⟨i, buf, hs, hh, hrd, hne, hr⟩
    · -- the stat fails: nothing observed, nothing read
      have hobs : observed (c :: rest) = observed rest := by simp [observed, hs]
      rw [hobs] at hnr ⊢
      rw [hr] at hrest ⊢
      have := ih cache pre hinv hval hrest hnr
      simp only [hzero]
      omega
    · -- served from the cache
      have hobs : observed (c :: rest) = (c.path, signatureForFileInfo i) :: observed rest := by
        simp [observed, hs]
      rw [hobs] at hnr ⊢
      rw [hr] at hrest ⊢
      obtain ⟨e, he, hsig, _, _⟩ := (cacheHit_eq_some_iff _ _ _).mp hh
      have hinv2 : ∀ p, (cache.entries p).map cachedCredentialFile.sig =
          lastSig (pre ++ [(c.path, signatureForFileInfo i)]) p := by
        intro p
        by_cases hp : p = c.path
        · subst hp; rw [lastSig_append_self, he]; simp [hsig]
        · rw [lastSig_append_other _ _ _ _ hp]; exact hinv p
      have := ih cache _ hinv2 hval hrest hnr.2
      have hle : pre.toFinset.card ≤ (pre ++ [(c.path, signatureForFileInfo i)]).toFinset.card :=
        Finset.card_le_card (by intro x hx; simp at hx ⊢; exact Or.inl hx)
      simp only [List.append_assoc, List.singleton_append] at this
      simp only [hzero]
      omega
    · rw [hr] at hfirst
      exact absurd (hfirst hpos) (by simp)
    · rw [hr] at hfirst
      exact absurd (hfirst hpos) (by simp)
    · -- read and stored: the pair is new
      have hobs : observed (c :: rest) = (c.path, signatureForFileInfo i) :: observed rest := by
        simp [observed, hs]
      rw [hobs] at hnr ⊢
      rw [hr] at hrest ⊢
      have hnew : (c.path, signatureForFileInfo i) ∉ pre := by
        intro hmem
        have hl := hnr.1 hmem
        have hi := hinv c.path
        rw [hl] at hi
        cases hent : cache.entries c.path with
        | none => rw [hent] at hi; simp at hi
        | some e =>
          rw [hent] at hi
          simp only [Option.map_some', Option.some.injEq] at hi
          rcases (cacheHit_eq_none_iff _ _).mp hh e hent with h1 | h2
          · exact h1 hi
          · exact hval c.path e hent h2
      have hinv2 : ∀ p, ((cache.store c.path
          { sig := signatureForFileInfo i, value := TrimSpace buf }).entries p).map
          cachedCredentialFile.sig = lastSig (pre ++ [(c.path, signatureForFileInfo i)]) p := by
        intro p
        by_cases hp : p = c.path
        · subst hp; rw [lastSig_append_self, store_entries_self]; rfl
        · rw [lastSig_append_other _ _ _ _ hp, store_entries_other _ _ _ _ hp]; exact hinv p
      have hval2 : ∀ p e, (cache.store c.path
          { sig := signatureForFileInfo i, value := TrimSpace buf }).entries p = some e →
          e.value ≠ "" := by
        intro p e he
        by_cases hp : p = c.path
        · subst hp
          rw [store_entries_self] at he
          cases he
          exact hne
        · rw [store_entries_other _ _ _ _ hp] at he
          exact hval p e he
      have := ih _ _ hinv2 hval2 hrest hnr.2
      have hcard : (pre ++ [(c.path, signatureForFileInfo i)]).toFinset.card =
          pre.toFinset.card + 1 := by
        have hins : (pre ++ [(c.path, signatureForFileInfo i)]).toFinset =
            insert (c.path, signatureForFileInfo i) pre.toFinset := by
          ext y
          simp only [List.mem_toFinset, List.mem_append, List.mem_singleton, Finset.mem_insert]
          tauto
        rw [hins, Finset.card_insert_of_not_mem (by simpa using hnew)]
      simp only [List.append_assoc, List.singleton_append] at this
      simp only [hone]
      omega

theorem foldl_append_singleton {K : Type} (l acc : List K) :
    l.foldl (fun keyGroup k => keyGroup ++ [k]) acc = acc ++ l := by
  induction l generalizing acc with
  | nil => simp
  | cons k rest ih => simp [List.foldl_cons, ih]

theorem cacheHitSigOnly_eq (lookup : Option cachedCredentialFile)
    (sig : credentialFileSignature) (hval : ∀ e, lookup = some e → e.value ≠ "") :
    cacheHitSigOnly lookup sig = cacheHit lookup sig := by
  cases lookup with
  | none => rfl
  | some e =>
    have hne := hval e rfl
    by_cases hs : e.sig = sig
    · simp [cacheHitSigOnly, cacheHit, hs, hne]
    · simp [cacheHitSigOnly, cacheHit, hs]

theorem readTrimmedSigOnly_eq (fs : FileSystem) (cache : credentialFileCache)
    (path : String) (hval : ∀ e, cache.entries path = some e → e.value ≠ "") :
    readTrimmedSigOnly fs cache path = readTrimmed fs cache path := by
  unfold readTrimmedSigOnly readTrimmed
  cases fs.stat path with
  | error e => rfl
  | ok info =>
    simp only
    rw [cacheHitSigOnly_eq _ _ hval]

theorem finalCache_CacheWF (calls : List Call) (cache : credentialFileCache)
    (hwf : CacheWF cache) : CacheWF (finalCache cache calls) := by
  induction calls generalizing cache with
  | nil => exact hwf
  | cons c rest ih =>
    exact ih _ (readTrimmed_preserves_CacheWF c.fs cache c.path hwf)

theorem runCallsSigOnly_eq (calls : List Call) (cache : credentialFileCache)
    (hwf : CacheWF cache) : runCallsSigOnly cache calls = runCalls cache calls := by
  induction calls generalizing cache with
  | nil => rfl
  | cons c rest ih =>
    have h := readTrimmedSigOnly_eq c.fs cache c.path (fun e he => (hwf c.path e he).1)
    simp only [runCallsSigOnly, runCalls, h]
    rw [ih _ (readTrimmed_preserves_CacheWF c.fs cache c.path hwf)]

/-! ## Claims -/

/-- C1. Slow path of `readTrimmed`: when the stat succeeds with signature `s`,
the cache has no entry for the path or an entry whose signature differs from `s`
or whose value is empty, and the content read gives `c` with a non-empty trimmed
form `v`, the call returns `(v, nil)` and the cache afterwards is the cache
before with the path mapped to exactly `{sig: s, value: v}`. -/
theorem readTrimmed_slow_path (fs : FileSystem) (cache : credentialFileCache)
    (path : String) (info : FileInfo) (c : String)
    (hstat : fs.stat path = .ok info)
    (hmiss : ∀ e, cache.entries path = some e →
      e.sig ≠ signatureForFileInfo info ∨ e.value = "")
    (hread : fs.readFile path = .ok c) (hne : TrimSpace c ≠ "") :
    (readTrimmed fs cache path).value = TrimSpace c ∧
      (readTrimmed fs cache path).err = none ∧
      (readTrimmed fs cache path).cache.entries path =
        some { sig := signatureForFileInfo info, value := TrimSpace c } ∧
      ∀ q, q ≠ path → (readTrimmed fs cache path).cache.entries q = cache.entries q := by
  have hm := (cacheHit_eq_none_iff _ _).mpr hmiss
  rw [readTrimmed_store fs cache path info c hstat hm hread hne]
  exact ⟨rfl, rfl, store_entries_self _ _ _, fun q hq => store_entries_other _ _ _ _ hq⟩

/-- C1, at the inputs of the tests: with a cold cache a password file holding
`"fromfile\n"` gives `"fromfile"`. -/
theorem readTrimmed_slow_path_witness :
    (readTrimmed (singleFile "password" ⟨⟨1700000000000000000⟩, 9⟩ "fromfile\n")
        newCredentialFileCache "password").value = "fromfile" ∧
      (readTrimmed (singleFile "password" ⟨⟨1700000000000000000⟩, 9⟩ "fromfile\n")
        newCredentialFileCache "password").err = none ∧
      (readTrimmed (singleFile "password" ⟨⟨1700000000000000000⟩, 9⟩ "fromfile\n")
        newCredentialFileCache "password").cache.entries "password" =
        some { sig := ⟨1700000000000000000, 9⟩, value := "fromfile" } := by
  have h := readTrimmed_slow_path
    (singleFile "password" ⟨⟨1700000000000000000⟩, 9⟩ "fromfile\n")
    newCredentialFileCache "password" ⟨⟨1700000000000000000⟩, 9⟩ "fromfile\n"
    rfl (fun e he => by cases he) rfl (by decide)
  exact ⟨h.1.trans (by decide), h.2.1, h.2.2.1.trans (by decide)⟩

/-- C2. Fast path of `readTrimmed`: when the stat succeeds with signature `s`
and the cache holds for the path an entry with signature `s` and a non-empty
value `v`, the call returns `(v, nil)`, its only filesystem call is the stat
(no content read, whatever `os.ReadFile` would answer), and the cache is
unchanged. -/
theorem readTrimmed_fast_path (fs : FileSystem) (cache : credentialFileCache)
    (path : String) (info : FileInfo) (entry : cachedCredentialFile)
    (hstat : fs.stat path = .ok info)
    (hentry : cache.entries path = some entry)
    (hsig : entry.sig = signatureForFileInfo info) (hval : entry.value ≠ "") :
    (readTrimmed fs cache path).value = entry.value ∧
      (readTrimmed fs cache path).err = none ∧
      (readTrimmed fs cache path).calls = [.stat path] ∧
      contentReads (readTrimmed fs cache path).calls = 0 ∧
      (readTrimmed fs cache path).cache = cache := by
  have hh : cacheHit (cache.entries path) (signatureForFileInfo info) = some entry.value :=
    (cacheHit_eq_some_iff _ _ _).mpr ⟨entry, hentry, hsig, hval, rfl⟩
  rw [readTrimmed_hit fs cache path info entry.value hstat hh]
  exact ⟨rfl, rfl, rfl, rfl, rfl⟩

/-- C2, on a rewritten file: after `"tok1\n"` was read, a file rewritten with
`"tok2\n"` under the same (modification time, size) still gives the stale
`"tok1"`, with the stat as only filesystem call; so does a file whose content
can no longer be read. -/
theorem readTrimmed_fast_path_witness :
    ((readTrimmed tokenSameSig warmCache "token").value = "tok1" ∧
      (readTrimmed tokenSameSig warmCache "token").err = none ∧
      (readTrimmed tokenSameSig warmCache "token").calls = [.stat "token"] ∧
      (readTrimmed tokenSameSig warmCache "token").cache = warmCache) ∧
    ((readTrimmed tokenUnreadable warmCache "token").value = "tok1" ∧
      (readTrimmed tokenUnreadable warmCache "token").err = none) := by
  have h := readTrimmed_fast_path tokenSameSig warmCache "token"
    ⟨⟨1700000000000000000⟩, 5⟩ ⟨⟨1700000000000000000, 5⟩, "tok1"⟩
    rfl (by decide) (by decide) (by decide)
  have h2 := readTrimmed_fast_path tokenUnreadable warmCache "token"
    ⟨⟨1700000000000000000⟩, 5⟩ ⟨⟨1700000000000000000, 5⟩, "tok1"⟩
    rfl (by decide) (by decide) (by decide)
  exact ⟨⟨h.1, h.2.1, h.2.2.1, h.2.2.2.2⟩, ⟨h2.1, h2.2.1⟩⟩

/-- C3 as stated fails: a modification time that is strictly later by `2^64`
nanoseconds gives the same `UnixNano`, hence the same signature, and the call
after the rewrite returns the cached `"tok1"` instead of the new `"tok2"`. -/
theorem readTrimmed_later_modtime_stale :
    (readTrimmed tokenV1 newCredentialFileCache "token").err = none ∧
      (readTrimmed tokenV1 newCredentialFileCache "token").value = "tok1" ∧
      tokenV1.stat "token" = .ok ⟨⟨1700000000000000000⟩, 5⟩ ∧
      tokenFarFuture.stat "token" = .ok ⟨⟨20146744073709551616⟩, 5⟩ ∧
      (Time.mk 20146744073709551616).After ⟨1700000000000000000⟩ ∧
      tokenFarFuture.readFile "token" = .ok "tok2\n" ∧
      TrimSpace "tok2\n" = "tok2" ∧
      (readTrimmed tokenFarFuture
        (readTrimmed tokenV1 newCredentialFileCache "token").cache "token").value = "tok1" ∧
      (readTrimmed tokenFarFuture
        (readTrimmed tokenV1 newCredentialFileCache "token").cache "token").value ≠ "tok2" := by
  refine ⟨by decide, by decide, rfl, rfl, by decide, rfl, by decide, by decide, by decide⟩

/-- C3, amended. Cache freshness: if `readTrimmed` succeeded on a file and the
file is then rewritten with content whose trimmed form `v2` is non-empty and
whose signature differs from the one of the first call - as it does when the
modification time is strictly later and both modification times are in the
range of `UnixNano` - then the next call returns `(v2, nil)` and overwrites the
entry of the path with the new signature and `v2`. -/
theorem readTrimmed_refreshes_on_new_signature (fs1 fs2 : FileSystem)
    (cache : credentialFileCache) (path : String) (info1 info2 : FileInfo) (c2 : String)
    (hstat1 : fs1.stat path = .ok info1)
    (hok1 : (readTrimmed fs1 cache path).err = none)
    (hstat2 : fs2.stat path = .ok info2)
    (hchanged : (info2.ModTime.After info1.ModTime ∧ info1.ModTime.inInt64Range ∧
        info2.ModTime.inInt64Range) ∨
      signatureForFileInfo info2 ≠ signatureForFileInfo info1)
    (hread2 : fs2.readFile path = .ok c2) (hne2 : TrimSpace c2 ≠ "") :
    (readTrimmed fs2 (readTrimmed fs1 cache path).cache path).value = TrimSpace c2 ∧
      (readTrimmed fs2 (readTrimmed fs1 cache path).cache path).err = none ∧
      (readTrimmed fs2 (readTrimmed fs1 cache path).cache path).cache.entries path =
        some { sig := signatureForFileInfo info2, value := TrimSpace c2 } := by
  have hsig : signatureForFileInfo info2 ≠ signatureForFileInfo info1 := by
    rcases hchanged with ⟨ha, h1, h2⟩ | h
    · exact signature_ne_of_after info1 info2 ha h1 h2
    · exact h
  have hentry := (readTrimmed_ok_entry fs1 cache path info1 hstat1 hok1).2
  have hmiss : cacheHit ((readTrimmed fs1 cache path).cache.entries path)
      (signatureForFileInfo info2) = none := by
    rw [cacheHit_eq_none_iff]
    intro e he
    rw [hentry] at he
    cases he
    exact Or.inl (Ne.symm hsig)
  rw [readTrimmed_store fs2 _ path info2 c2 hstat2 hmiss hread2 hne2]
  exact ⟨rfl, rfl, store_entries_self _ _ _⟩

/-- C3, at the inputs of the test: `"tok1\n"` resolves to `"tok1"`; after a
rewrite with `"tok2\n"` and a modification time advanced by two seconds the next
call gives `"tok2"`. -/
theorem readTrimmed_refreshes_witness :
    (readTrimmed tokenV1 newCredentialFileCache "token").value = "tok1" ∧
      (readTrimmed tokenV2 (readTrimmed tokenV1 newCredentialFileCache "token").cache
        "token").value = "tok2" ∧
      (readTrimmed tokenV2 (readTrimmed tokenV1 newCredentialFileCache "token").cache
        "token").err = none ∧
      (readTrimmed tokenV2 (readTrimmed tokenV1 newCredentialFileCache "token").cache
        "token").cache.entries "token" =
        some { sig := ⟨1700000002000000000, 5⟩, value := "tok2" } := by
  have h := readTrimmed_refreshes_on_new_signature tokenV1 tokenV2 newCredentialFileCache
    "token" ⟨⟨1700000000000000000⟩, 5⟩ ⟨⟨1700000002000000000⟩, 5⟩ "tok2\n"
    rfl (by decide) rfl (Or.inl (by decide)) rfl (by decide)
  exact ⟨by decide, h.1.trans (by decide), h.2.1, h.2.2.trans (by decide)⟩

/-- C4. In every sequence of `readTrimmed` calls (any paths, any filesystem
state at each call) starting from the empty cache of `newCredentialFileCache`,
every call that returns without error returns a string that is non-empty and
equal to its own `TrimSpace`, so that neither its first nor its last character
is white space. -/
theorem runCalls_values_trimmed (calls : List Call) (r : ReadResult)
    (hr : r ∈ runCalls newCredentialFileCache calls) (hok : r.err = none) :
    r.value ≠ "" ∧ TrimSpace r.value = r.value ∧
      (∀ c, r.value.data.head? = some c → isSpace c = false) ∧
      (∀ c, r.value.data.getLast? = some c → isSpace c = false) := by
  have h := runCalls_ok_value calls newCredentialFileCache CacheWF_new r hr hok
  exact ⟨h.1, h.2, trimmed_ends r.value h.2⟩

/-- C4, on a run of two calls: the second call is served from the cache and
returns the trimmed, non-empty `"tok1"`. -/
theorem runCalls_values_trimmed_witness :
    (readTrimmed tokenSameSig warmCache "token").err = none ∧
      (readTrimmed tokenSameSig warmCache "token").value ≠ "" ∧
      TrimSpace (readTrimmed tokenSameSig warmCache "token").value =
        (readTrimmed tokenSameSig warmCache "token").value := by
  have h := runCalls_values_trimmed [⟨tokenV1, "token"⟩, ⟨tokenSameSig, "token"⟩]
    (readTrimmed tokenSameSig warmCache "token")
    (List.mem_cons_of_mem _ (List.mem_cons_self _ _)) (by decide)
  exact ⟨by decide, h.1, h.2.1⟩

/-- C5. Empty content on the slow path: when the stat succeeds, the fast path
does not apply and the content read succeeds with content whose trimmed form is
empty, `readTrimmed` returns `("", errCredentialFileEmpty)` and the cache is
exactly the cache before the call. -/
theorem readTrimmed_empty_content (fs : FileSystem) (cache : credentialFileCache)
    (path : String) (info : FileInfo) (c : String)
    (hstat : fs.stat path = .ok info)
    (hmiss : ∀ e, cache.entries path = some e →
      e.sig ≠ signatureForFileInfo info ∨ e.value = "")
    (hread : fs.readFile path = .ok c) (hempty : TrimSpace c = "") :
    (readTrimmed fs cache path).value = "" ∧
      (readTrimmed fs cache path).err = some .errCredentialFileEmpty ∧
      (readTrimmed fs cache path).cache = cache := by
  have hm := (cacheHit_eq_none_iff _ _).mpr hmiss
  rw [readTrimmed_empty fs cache path info c hstat hm hread hempty]
  exact ⟨rfl, rfl, rfl⟩

/-- C5, on a file of five blanks: with a cold cache the call fails with
`errCredentialFileEmpty` and the cache stays empty. -/
theorem readTrimmed_empty_content_witness :
    (readTrimmed tokenBlank newCredentialFileCache "token").value = "" ∧
      (readTrimmed tokenBlank newCredentialFileCache "token").err =
        some .errCredentialFileEmpty ∧
      (readTrimmed tokenBlank newCredentialFileCache "token").cache =
        newCredentialFileCache :=
  readTrimmed_empty_content tokenBlank newCredentialFileCache "token"
    ⟨⟨1700000000000000000⟩, 5⟩ "     " rfl (fun e he => by cases he) rfl (by decide)

/-- C6. Filesystem failures pass through: if the stat fails with `e`, the call
returns `("", e)`, its only filesystem call is the stat and the cache is
unchanged; if the stat succeeds, the fast path does not apply and the content
read fails with `e`, the call returns `("", e)` and the cache is unchanged. -/
theorem readTrimmed_fs_failure (fs : FileSystem) (cache : credentialFileCache)
    (path : String) :
    (∀ e, fs.stat path = .error e →
      (readTrimmed fs cache path).value = "" ∧
        (readTrimmed fs cache path).err = some (.os e) ∧
        (readTrimmed fs cache path).calls = [.stat path] ∧
        contentReads (readTrimmed fs cache path).calls = 0 ∧
        (readTrimmed fs cache path).cache = cache) ∧
    (∀ info e, fs.stat path = .ok info →
      (∀ entry, cache.entries path = some entry →
        entry.sig ≠ signatureForFileInfo info ∨ entry.value = "") →
      fs.readFile path = .error e →
      (readTrimmed fs cache path).value = "" ∧
        (readTrimmed fs cache path).err = some (.os e) ∧
        (readTrimmed fs cache path).cache = cache) := by
  constructor
  · intro e hstat
    rw [readTrimmed_stat_error fs cache path e hstat]
    exact ⟨rfl, rfl, rfl, rfl, rfl⟩
  · intro info e hstat hmiss hread
    have hm := (cacheHit_eq_none_iff _ _).mpr hmiss
    rw [readTrimmed_read_error fs cache path info e hstat hm hread]
    exact ⟨rfl, rfl, rfl⟩

/-- C6, on a missing file and on an unreadable one: the error of the stat,
respectively of the read, comes back as it is. -/
theorem readTrimmed_fs_failure_witness :
    ((readTrimmed noFiles warmCache "token").err = some (.os ⟨"stat", "token", 2⟩) ∧
      (readTrimmed noFiles warmCache "token").cache = warmCache) ∧
    ((readTrimmed tokenUnreadable newCredentialFileCache "token").err =
        some (.os ⟨"open", "token", 13⟩) ∧
      (readTrimmed tokenUnreadable newCredentialFileCache "token").cache =
        newCredentialFileCache) := by
  have h1 := (readTrimmed_fs_failure noFiles warmCache "token").1 ⟨"stat", "token", 2⟩ rfl
  have h2 := (readTrimmed_fs_failure tokenUnreadable newCredentialFileCache "token").2
    ⟨⟨1700000000000000000⟩, 5⟩ ⟨"open", "token", 13⟩ rfl (fun e he => by cases he) rfl
  exact ⟨⟨h1.2.1, h1.2.2.2.2⟩, ⟨h2.2.1, h2.2.2⟩⟩

/-- C7. A cached value is not served for a file that can no longer be
stat'ed: if a first call succeeded (and so cached its value) and the stat of the
second call fails with `e`, the second call returns `("", e)` and not the cached
value, while the entry cached by the first call stays in the cache. -/
theorem readTrimmed_deleted_file (fs1 fs2 : FileSystem) (cache : credentialFileCache)
    (path : String) (info1 : FileInfo) (e : PathError)
    (hstat1 : fs1.stat path = .ok info1)
    (hok1 : (readTrimmed fs1 cache path).err = none)
    (hstat2 : fs2.stat path = .error e) :
    (readTrimmed fs2 (readTrimmed fs1 cache path).cache path).value = "" ∧
      (readTrimmed fs2 (readTrimmed fs1 cache path).cache path).err = some (.os e) ∧
      (readTrimmed fs2 (readTrimmed fs1 cache path).cache path).value ≠
        (readTrimmed fs1 cache path).value ∧
      (readTrimmed fs2 (readTrimmed fs1 cache path).cache path).cache =
        (readTrimmed fs1 cache path).cache ∧
      (readTrimmed fs2 (readTrimmed fs1 cache path).cache path).cache.entries path =
        some { sig := signatureForFileInfo info1,
               value := (readTrimmed fs1 cache path).value } := by
  have h1 := readTrimmed_ok_entry fs1 cache path info1 hstat1 hok1
  rw [readTrimmed_stat_error fs2 _ path e hstat2]
  exact ⟨rfl, rfl, Ne.symm h1.1, rfl, h1.2⟩

/-- C7, on the token file: read once, then deleted; the second call fails with
the error of the stat and the entry `"tok1"` is still cached. -/
theorem readTrimmed_deleted_file_witness :
    (readTrimmed tokenV1 newCredentialFileCache "token").value = "tok1" ∧
      (readTrimmed noFiles (readTrimmed tokenV1 newCredentialFileCache "token").cache
        "token").err = some (.os ⟨"stat", "token", 2⟩) ∧
      (readTrimmed noFiles (readTrimmed tokenV1 newCredentialFileCache "token").cache
        "token").cache.entries "token" =
        some { sig := ⟨1700000000000000000, 5⟩, value := "tok1" } := by
  have h := readTrimmed_deleted_file tokenV1 noFiles newCredentialFileCache "token"
    ⟨⟨1700000000000000000⟩, 5⟩ ⟨"stat", "token", 2⟩ rfl (by decide) rfl
  exact ⟨by decide, h.2.1, h.2.2.2.2.trans (by decide)⟩

/-- C8. Idempotence of `readTrimmed`: for every cache, path and filesystem
state, a second call in the same filesystem state returns the same value and
the same error as the first and leaves the cache as the first call left it. -/
theorem readTrimmed_idempotent (fs : FileSystem) (cache : credentialFileCache)
    (path : String) :
    (readTrimmed fs (readTrimmed fs cache path).cache path).value =
        (readTrimmed fs cache path).value ∧
      (readTrimmed fs (readTrimmed fs cache path).cache path).err =
        (readTrimmed fs cache path).err ∧
      (readTrimmed fs (readTrimmed fs cache path).cache path).cache =
        (readTrimmed fs cache path).cache := by
  rcases readTrimmed_cases fs cache path with ⟨e, hs, hr⟩ | ⟨i, v, hs, hh, hr⟩ |
    ⟨i, e, hs, hh, hrd, hr⟩ | ⟨i, buf, hs, hh, hrd, hem, hr⟩ | ⟨i, buf, hs, hh, hrd, hne, hr⟩
  · rw [hr]; simp only
    rw [hr]; exact ⟨rfl, rfl, rfl⟩
  · rw [hr]; simp only
    rw [hr]; exact ⟨rfl, rfl, rfl⟩
  · rw [hr]; simp only
    rw [hr]; exact ⟨rfl, rfl, rfl⟩
  · rw [hr]; simp only
    rw [hr]; exact ⟨rfl, rfl, rfl⟩
  · rw [hr]; simp only
    have hh2 : cacheHit ((cache.store path
        { sig := signatureForFileInfo i, value := TrimSpace buf }).entries path)
        (signatureForFileInfo i) = some (TrimSpace buf) :=
      (cacheHit_eq_some_iff _ _ _).mpr ⟨_, store_entries_self _ _ _, rfl, hne, rfl⟩
    rw [readTrimmed_hit fs _ path i (TrimSpace buf) hs hh2]
    exact ⟨rfl, rfl, rfl⟩

/-- C9 as stated fails: after `"tok1\n"` was read, a file that holds only
white space under the same (modification time, size) is not rejected; the
call succeeds with the cached `"tok1"`. -/
theorem readTrimmed_blank_file_served_from_cache :
    tokenBlank.stat "token" = .ok ⟨⟨1700000000000000000⟩, 5⟩ ∧
      tokenBlank.readFile "token" = .ok "     " ∧
      (∀ ch ∈ "     ".data, isSpace ch = true) ∧
      warmCache = finalCache newCredentialFileCache [⟨tokenV1, "token"⟩] ∧
      (readTrimmed tokenBlank warmCache "token").err = none ∧
      (readTrimmed tokenBlank warmCache "token").value = "tok1" ∧
      (readTrimmed tokenBlank warmCache "token").err ≠ some .errCredentialFileEmpty := by
  refine ⟨rfl, rfl, by decide, rfl, by decide, by decide, by decide⟩

/-- C9, amended. Empty file rejection: for every path whose stat succeeds and
whose file content consists only of white space, `readTrimmed` fails with
`errCredentialFileEmpty` whenever the fast path does not apply (the cache has no
entry for the path with the signature of the stat and a non-empty value), and
for every cache it does not return a successful empty string. -/
theorem readTrimmed_blank_file (fs : FileSystem) (cache : credentialFileCache)
    (path : String) (info : FileInfo) (c : String)
    (hstat : fs.stat path = .ok info) (hread : fs.readFile path = .ok c)
    (hblank : ∀ ch ∈ c.data, isSpace ch = true) :
    ((∀ e, cache.entries path = some e →
        e.sig ≠ signatureForFileInfo info ∨ e.value = "") →
      (readTrimmed fs cache path).err = some .errCredentialFileEmpty) ∧
    ¬ ((readTrimmed fs cache path).err = none ∧ (readTrimmed fs cache path).value = "") := by
  have hempty : TrimSpace c = "" := (TrimSpace_eq_empty_iff c).mpr hblank
  constructor
  · intro hmiss
    have hm := (cacheHit_eq_none_iff _ _).mpr hmiss
    rw [readTrimmed_empty fs cache path info c hstat hm hread hempty]
  · rintro ⟨hok, hv⟩
    exact (readTrimmed_ok_entry fs cache path info hstat hok).1 hv

/-- C9, on a file of five blanks and a cold cache: the call fails with
`errCredentialFileEmpty`. -/
theorem readTrimmed_blank_file_witness :
    (∀ ch ∈ "     ".data, isSpace ch = true) ∧
      (readTrimmed tokenBlank newCredentialFileCache "token").err =
        some .errCredentialFileEmpty :=
  ⟨by decide, (readTrimmed_blank_file tokenBlank newCredentialFileCache "token"
    ⟨⟨1700000000000000000⟩, 5⟩ "     " rfl rfl (by decide)).1 (fun e he => by cases he)⟩

/-- C10 as stated fails: when the file is rewritten and then restored with its
first modification time, the run observes two distinct (path, signature) pairs
but performs three content reads, each of them successful and non-empty. -/
theorem restored_file_read_three_times :
    (runCalls newCredentialFileCache restoredCalls).map (fun r => (r.value, r.err)) =
        [("tok1", none), ("tok2", none), ("tok1", none)] ∧
      totalReads (runCalls newCredentialFileCache restoredCalls) = 3 ∧
      (observed restoredCalls).dedup.length = 2 ∧
      ¬ totalReads (runCalls newCredentialFileCache restoredCalls) ≤
        (observed restoredCalls).dedup.length := by
  refine ⟨by decide, by decide, by decide, by decide⟩

/-- C10, amended. Read-count bound: in every run of `readTrimmed` calls from
the empty cache in which every content read performed succeeds with non-empty
trimmed content and no path goes back to a signature it had before a change,
the number of content reads is at most the number of distinct
(path, signature) pairs observed by the stats of the run. -/
theorem totalReads_le_distinct_pairs (calls : List Call)
    (hreads : ∀ r ∈ runCalls newCredentialFileCache calls,
      0 < contentReads r.calls → r.err = none)
    (hnr : NoRevert (observed calls)) :
    totalReads (runCalls newCredentialFileCache calls) ≤ (observed calls).dedup.length := by
  have h := totalReads_bound calls newCredentialFileCache []
    (fun p => rfl) (fun p e he => by cases he) hreads hnr
  rw [← List.card_toFinset]
  simpa using h

/-- C10, on a rotation: the token file is read twice, rewritten and read twice
again; four calls, two content reads, two distinct pairs. -/
theorem totalReads_le_distinct_pairs_witness :
    NoRevert (observed rotatedCalls) ∧
      totalReads (runCalls newCredentialFileCache rotatedCalls) = 2 ∧
      (observed rotatedCalls).dedup.length = 2 ∧
      totalReads (runCalls newCredentialFileCache rotatedCalls) ≤
        (observed rotatedCalls).dedup.length :=
  ⟨by decide, by decide, by decide,
    totalReads_le_distinct_pairs rotatedCalls (by decide) (by decide)⟩

/-- C11. `AgeConfig.IsActivated` is true if and only if the variable
`TF_BACKEND_HTTP_SOPS_AGE_RECIPIENTS` is set, whatever its value: it is true
when the variable is set to the empty string and false exactly when the
variable is absent. -/
theorem isActivated_iff_set (a : AgeConfig) (env : Environ) :
    (a.IsActivated env = true ↔ ∃ v, env "TF_BACKEND_HTTP_SOPS_AGE_RECIPIENTS" = some v) ∧
      (env "TF_BACKEND_HTTP_SOPS_AGE_RECIPIENTS" = some "" → a.IsActivated env = true) ∧
      (a.IsActivated env = false ↔ env "TF_BACKEND_HTTP_SOPS_AGE_RECIPIENTS" = none) := by
  unfold AgeConfig.IsActivated LookupEnv
  cases env "TF_BACKEND_HTTP_SOPS_AGE_RECIPIENTS" with
  | none => simp
  | some v => simp

/-- C11, with the variable set to the empty string: the provider is active;
with an empty environment it is not. -/
theorem isActivated_iff_set_witness :
    AgeConfig.IsActivated {} (envOf [("TF_BACKEND_HTTP_SOPS_AGE_RECIPIENTS", "")]) = true ∧
      AgeConfig.IsActivated {} (envOf []) = false :=
  ⟨(isActivated_iff_set {} (envOf [("TF_BACKEND_HTTP_SOPS_AGE_RECIPIENTS", "")])).2.1 rfl,
    (isActivated_iff_set {} (envOf [])).2.2.mpr rfl⟩

/-- C12. `AgeConfig.KeyGroup`, with `r` the value of
`TF_BACKEND_HTTP_SOPS_AGE_RECIPIENTS` (empty when unset): if the parser fails on
`r` with `e`, `KeyGroup` fails with `e`; if the parser gives the keys `ks`,
`KeyGroup` returns without error a key group with as many members as `ks` whose
`i`-th member is the `i`-th key of `ks` - the list `ks` itself. -/
theorem keyGroup_members {K E : Type} (a : AgeConfig)
    (parse : String → Except E (List K)) (env : Environ) :
    (∀ e, parse (Getenv env "TF_BACKEND_HTTP_SOPS_AGE_RECIPIENTS") = .error e →
      a.KeyGroup parse env = .error e) ∧
    (∀ ks, parse (Getenv env "TF_BACKEND_HTTP_SOPS_AGE_RECIPIENTS") = .ok ks →
      ∃ kg, a.KeyGroup parse env = .ok kg ∧ kg = ks ∧ kg.length = ks.length ∧
        ∀ i : Nat, kg[i]? = ks[i]?) := by
  constructor
  · intro e he
    simp only [AgeConfig.KeyGroup, he]
  · intro ks hks
    refine ⟨ks, ?_, rfl, rfl, fun i => rfl⟩
    simp only [AgeConfig.KeyGroup, hks, foldl_append_singleton, List.nil_append]

/-- C12, with two recipients, with a malformed one, and with the variable
unset. -/
theorem keyGroup_members_witness :
    AgeConfig.KeyGroup {} sampleRecipients
        (envOf [("TF_BACKEND_HTTP_SOPS_AGE_RECIPIENTS", "age1a,age1b")]) =
        .ok ["age1a", "age1b"] ∧
      AgeConfig.KeyGroup {} sampleRecipients
        (envOf [("TF_BACKEND_HTTP_SOPS_AGE_RECIPIENTS", "age1a,bogus")]) =
        .error "bogus" ∧
      AgeConfig.KeyGroup {} sampleRecipients (envOf []) = .ok [] := by
  obtain ⟨kg, h1, h2, _, _⟩ := (keyGroup_members {} sampleRecipients
    (envOf [("TF_BACKEND_HTTP_SOPS_AGE_RECIPIENTS", "age1a,age1b")])).2
    ["age1a", "age1b"] rfl
  have h3 := (keyGroup_members {} sampleRecipients
    (envOf [("TF_BACKEND_HTTP_SOPS_AGE_RECIPIENTS", "age1a,bogus")])).1 "bogus" rfl
  exact ⟨h2 ▸ h1, h3, rfl⟩

/-- C14. Frame of `readTrimmed` on the cache: a call on `path` removes no
entry, changes the entry of no other path, and leaves the cache as it was
unless it succeeds; the only change it can make is to store an entry for
`path`, and then it returns without error. -/
theorem readTrimmed_frame (fs : FileSystem) (cache : credentialFileCache)
    (path : String) :
    (∀ q e, cache.entries q = some e →
      ∃ e2, (readTrimmed fs cache path).cache.entries q = some e2) ∧
    (∀ q, q ≠ path → (readTrimmed fs cache path).cache.entries q = cache.entries q) ∧
    ((readTrimmed fs cache path).err ≠ none → (readTrimmed fs cache path).cache = cache) ∧
    ((readTrimmed fs cache path).cache = cache ∨
      ∃ entry, (readTrimmed fs cache path).err = none ∧
        (readTrimmed fs cache path).cache = cache.store path entry) := by
  rcases readTrimmed_cases fs cache path with ⟨e, _, hr⟩ | ⟨i, v, _, _, hr⟩ |
    ⟨i, e, _, _, _, hr⟩ | ⟨i, buf, _, _, _, _, hr⟩ | ⟨i, buf, _, _, _, hne, hr⟩
  · rw [hr]; exact ⟨fun q e he => ⟨e, he⟩, fun q _ => rfl, fun _ => rfl, Or.inl rfl⟩
  · rw [hr]; exact ⟨fun q e he => ⟨e, he⟩, fun q _ => rfl, fun _ => rfl, Or.inl rfl⟩
  · rw [hr]; exact ⟨fun q e he => ⟨e, he⟩, fun q _ => rfl, fun _ => rfl, Or.inl rfl⟩
  · rw [hr]; exact ⟨fun q e he => ⟨e, he⟩, fun q _ => rfl, fun _ => rfl, Or.inl rfl⟩
  · rw [hr]
    refine ⟨?_, fun q hq => store_entries_other _ _ _ _ hq, fun h => absurd rfl h,
      Or.inr ⟨_, rfl, rfl⟩⟩
    intro q e he
    by_cases hq : q = path
    · subst hq; exact ⟨_, store_entries_self _ _ _⟩
    · exact ⟨e, (store_entries_other _ _ _ _ hq).trans he⟩

/-- C14, on two files: reading the token file into a cache that holds the
password file leaves the entry of the password file as it was. -/
theorem readTrimmed_frame_witness :
    (readTrimmed tokenV1 (readTrimmed passwordFile newCredentialFileCache "password").cache
        "token").cache.entries "password" =
      some { sig := ⟨1700000000000000000, 9⟩, value := "fromfile" } :=
  ((readTrimmed_frame tokenV1
    (readTrimmed passwordFile newCredentialFileCache "password").cache "token").2.1
    "password" (by decide)).trans (by decide)

/-- C15. Cache-entry invariant: in every cache reached from
`newCredentialFileCache` by a sequence of `readTrimmed` calls every entry holds a
value that is non-empty and equal to its own `TrimSpace`; hence on such a cache
the guard `entry.value != ""` of the fast path rejects no entry whose signature
matches, a call of `readTrimmed` is equal in result, cache and filesystem calls
to a call of the variant that compares the signatures only, and so are whole
runs from the empty cache. -/
theorem reachable_cache_invariant (calls : List Call) :
    (∀ p e, (finalCache newCredentialFileCache calls).entries p = some e →
      e.value ≠ "" ∧ TrimSpace e.value = e.value) ∧
    (∀ p e, (finalCache newCredentialFileCache calls).entries p = some e →
      cacheHit (some e) e.sig = some e.value) ∧
    (∀ fs path, readTrimmedSigOnly fs (finalCache newCredentialFileCache calls) path =
      readTrimmed fs (finalCache newCredentialFileCache calls) path) ∧
    runCallsSigOnly newCredentialFileCache calls = runCalls newCredentialFileCache calls := by
  have hwf := finalCache_CacheWF calls newCredentialFileCache CacheWF_new
  refine ⟨hwf, ?_, ?_, runCallsSigOnly_eq calls newCredentialFileCache CacheWF_new⟩
  · intro p e he
    exact (cacheHit_eq_some_iff _ _ _).mpr ⟨e, rfl, rfl, (hwf p e he).1, rfl⟩
  · intro fs path
    exact readTrimmedSigOnly_eq fs _ path (fun e he => (hwf path e he).1)

/-- C15, on the cache left by one read of the token file: its entry holds the
trimmed, non-empty `"tok1"`. -/
theorem reachable_cache_invariant_witness :
    (finalCache newCredentialFileCache [⟨tokenV1, "token"⟩]).entries "token" =
        some { sig := ⟨1700000000000000000, 5⟩, value := "tok1" } ∧
      "tok1" ≠ "" ∧ TrimSpace "tok1" = "tok1" := by
  have h := (reachable_cache_invariant [⟨tokenV1, "token"⟩]).1 "token"
    { sig := ⟨1700000000000000000, 5⟩, value := "tok1" } (by decide)
  exact ⟨by decide, h.1, h.2⟩

end CredentialFiles
